import Mathlib

/-!
Verification of the balance and debt-simplification engine of the
GastoGrupal shared-expense ledger.

The storage layer's two debt views, `getDebtSummary` and
`getSimplifiedDebts`, are embedded shallowly: the rows the Supabase
client would return are modelled as a `Ledger` snapshot (lists of
users, expenses, expense participants and payments), monetary amounts
as exact decimals, and the per-user aggregation queries as list sums.

Amount representation: every stored amount is a `decimal(10,2)` column
(two fractional digits), and the spec mandates exact decimal
arithmetic with rounding only at display time; the embedding therefore
represents amounts as integers counting hundredths (cents), which is
exact and on which every operation the engine performs (addition,
subtraction, negation, `min`, comparisons) agrees with the decimal
reading.  The source literal `0.01` is the integer `1` here.  The
source formats each emitted amount with `toFixed(2)` for display; the
model keeps the exact matched amount, since rounding happens only at
final formatting.  JavaScript's `Array.prototype.sort` is stable
(ES2019); the model uses a stable insertion sort for the
sort-descending step of `getSimplifiedDebts`.
-/

namespace GG

/-- Epsilon below which a balance or remaining magnitude is treated as
settled: the literal 0.01 of the source, i.e. one cent. -/
def eps : ℤ := 1

/-- Row of the `users` table (id, name, initials, color, active). -/
structure User where
  id : String
  name : String
  initials : String
  color : String
  active : Int
deriving DecidableEq, Repr

/-- Row of the `expenses` table. -/
structure Expense where
  id : String
  description : String
  amount : ℤ
  payerId : String
  date : String
deriving DecidableEq, Repr

/-- Row of the `expense_participants` table. -/
structure ExpenseParticipant where
  expenseId : String
  userId : String
  amount : ℤ
deriving DecidableEq, Repr

/-- Row of the `payments` table. -/
structure Payment where
  id : String
  fromUserId : String
  toUserId : String
  amount : ℤ
  description : Option String
  paymentDate : String
deriving DecidableEq, Repr

/-- A snapshot of everything the storage layer reads: the full ledger. -/
structure Ledger where
  users : List User
  expenses : List Expense
  participants : List ExpenseParticipant
  payments : List Payment

/-- A settlement suggestion, as in `shared/schema.ts` (`DebtSummary`);
the amount is kept exact rather than `toFixed(2)`-formatted. -/
structure DebtSummary where
  debtor : User
  creditor : User
  amount : ℤ
deriving DecidableEq, Repr

/-- Sum of `expenses.amount` where `payer_id = uid`. -/
def totalPaid (l : Ledger) (uid : String) : ℤ :=
  ((l.expenses.filter fun e => e.payerId = uid).map Expense.amount).sum

/-- Sum of `expense_participants.amount` where `user_id = uid`. -/
def totalOwed (l : Ledger) (uid : String) : ℤ :=
  ((l.participants.filter fun p => p.userId = uid).map ExpenseParticipant.amount).sum

/-- Sum of `payments.amount` where `from_user_id = uid`. -/
def totalPaymentsMade (l : Ledger) (uid : String) : ℤ :=
  ((l.payments.filter fun p => p.fromUserId = uid).map Payment.amount).sum

/-- Sum of `payments.amount` where `to_user_id = uid`. -/
def totalPaymentsReceived (l : Ledger) (uid : String) : ℤ :=
  ((l.payments.filter fun p => p.toUserId = uid).map Payment.amount).sum

/-- Per-user balance of `getDebtSummary` (part_005 line 608):
`(totalPaid - totalPaymentsReceived) - (totalOwed - totalPaymentsMade)`. -/
def summaryBalance (l : Ledger) (u : User) : ℤ :=
  (totalPaid l u.id - totalPaymentsReceived l u.id)
    - (totalOwed l u.id - totalPaymentsMade l u.id)

/-- Per-user balance of `getSimplifiedDebts` (part_005 line 681):
`totalPaid - totalOwed` (payments are not read by that function). -/
def simplifiedBalance (l : Ledger) (u : User) : ℤ :=
  totalPaid l u.id - totalOwed l u.id

/-- `Map.set` on an association list keyed by user id: an existing key
is overwritten in place (JavaScript `Map` keeps the original insertion
position), a new key is appended. -/
def mapSet (m : List (String × (User × ℤ))) (k : String) (v : User × ℤ) :
    List (String × (User × ℤ)) :=
  if m.any fun p => p.1 = k then
    m.map fun p => if p.1 = k then (k, v) else p
  else m ++ [(k, v)]

/-- The `balances` map built by both debt views: iterate the users the
store returned, `set`ting `user.id -> (user, balance)`. -/
def buildBalances (l : Ledger) (f : User → ℤ) : List (String × (User × ℤ)) :=
  l.users.foldl (fun m u => mapSet m u.id (u, f u)) []

/-- The `balances.forEach` partition used by both views: entries with
balance `> 0.01` are pushed on `creditors`, entries with balance
`< -0.01` on `debtors` with `Math.abs(balance)` (here `-b`, the
absolute value of a negative balance) as magnitude. -/
def splitBalances : List (String × (User × ℤ)) → List (User × ℤ) × List (User × ℤ)
  | [] => ([], [])
  | (_, (u, b)) :: rest =>
    let s := splitBalances rest
    if b > eps then ((u, b) :: s.1, s.2)
    else if b < -eps then (s.1, (u, -b) :: s.2)
    else s

/-- Inner loop of `getDebtSummary` (part_005 lines 630-643): walk the
creditors in order; skip when `remainingDebt <= 0.01` or
`creditor.amount <= 0.01`, otherwise allocate
`min(remainingDebt, creditor.amount)`, emitting a suggestion and
reducing both sides.  Returns the emitted suggestions and the
creditors list with its reduced amounts. -/
def allocToCreditors (debtor : User) : ℤ → List (User × ℤ) →
    List DebtSummary × List (User × ℤ)
  | _, [] => ([], [])
  | rd, (cu, ca) :: rest =>
    if rd ≤ eps ∨ ca ≤ eps then
      let s := allocToCreditors debtor rd rest
      (s.1, (cu, ca) :: s.2)
    else
      let payment := min rd ca
      let s := allocToCreditors debtor (rd - payment) rest
      (⟨debtor, cu, payment⟩ :: s.1, (cu, ca - payment) :: s.2)

/-- Outer loop of `getDebtSummary` (part_005 lines 627-644): for each
debtor, in order, run `allocToCreditors`; the creditors' reduced
amounts persist across debtors (the source mutates the array
entries in place). -/
def allocAllDebtors : List (User × ℤ) → List (User × ℤ) → List DebtSummary
  | _, [] => []
  | creditors, (du, da) :: rest =>
    let s := allocToCreditors du da creditors
    s.1 ++ allocAllDebtors s.2 rest

/-- Creditor candidates of `getDebtSummary`, in store enumeration order. -/
def summaryCreditors (l : Ledger) : List (User × ℤ) :=
  (splitBalances (buildBalances l (summaryBalance l))).1

/-- Debtor candidates of `getDebtSummary` (positive magnitudes), in
store enumeration order. -/
def summaryDebtors (l : Ledger) : List (User × ℤ) :=
  (splitBalances (buildBalances l (summaryBalance l))).2

/-- `getDebtSummary` (part_005 lines 546-647): balances, epsilon split,
then the per-debtor greedy allocation over creditors in input order. -/
def getDebtSummary (l : Ledger) : List DebtSummary :=
  allocAllDebtors (summaryCreditors l) (summaryDebtors l)

/-- Stable insertion keeping the list sorted by descending amount:
an incoming element goes after every element with a greater-or-equal
amount, mirroring the stable `sort((a, b) => b.amount - a.amount)`. -/
def insertDesc (x : User × ℤ) : List (User × ℤ) → List (User × ℤ)
  | [] => [x]
  | y :: ys => if x.2 ≤ y.2 then y :: insertDesc x ys else x :: y :: ys

/-- Stable sort by descending amount (JavaScript sort is stable). -/
def sortDesc (xs : List (User × ℤ)) : List (User × ℤ) :=
  xs.foldl (fun acc x => insertDesc x acc) []

/-- Two-pointer greedy loop of `getSimplifiedDebts` (part_005 lines
705-722), with an explicit fuel so the model mirrors the `while` loop
step by step; `none` is running out of fuel.  Advancing cursor `i`
(resp. `j`) is dropping the head creditor (resp. debtor); a head that
stays keeps its reduced amount.  Returns the emitted suggestions and
the unconsumed suffixes of both lists. -/
def simplifyLoop : Nat → List (User × ℤ) → List (User × ℤ) →
    Option (List DebtSummary × List (User × ℤ) × List (User × ℤ))
  | 0, _, _ => none
  | _ + 1, [], ds => some ([], [], ds)
  | _ + 1, c :: cs, [] => some ([], c :: cs, [])
  | fuel + 1, (cu, ca) :: cs, (du, da) :: ds =>
    let amount := min ca da
    let ca' := ca - amount
    let da' := da - amount
    let cs' := if ca' < eps then cs else (cu, ca') :: cs
    let ds' := if da' < eps then ds else (du, da') :: ds
    match simplifyLoop fuel cs' ds' with
    | none => none
    | some s => some (⟨du, cu, amount⟩ :: s.1, s.2)

/-- Creditor queue of `getSimplifiedDebts`: epsilon split of the
payment-blind balances, sorted descending by amount. -/
def simplifiedCreditors (l : Ledger) : List (User × ℤ) :=
  sortDesc (splitBalances (buildBalances l (simplifiedBalance l))).1

/-- Debtor queue of `getSimplifiedDebts`: epsilon split of the
payment-blind balances, sorted descending by magnitude. -/
def simplifiedDebtors (l : Ledger) : List (User × ℤ) :=
  sortDesc (splitBalances (buildBalances l (simplifiedBalance l))).2

/-- One full run of the two-pointer loop, with enough fuel for every
iteration the `while` loop can perform. -/
def simplifiedRun (l : Ledger) :
    Option (List DebtSummary × List (User × ℤ) × List (User × ℤ)) :=
  simplifyLoop ((simplifiedCreditors l).length + (simplifiedDebtors l).length + 1)
    (simplifiedCreditors l) (simplifiedDebtors l)

/-- `getSimplifiedDebts` (part_005 lines 649-725): payment-blind
balances, epsilon split, descending sort, then the two-pointer greedy
matching. -/
def getSimplifiedDebts (l : Ledger) : List DebtSummary :=
  match simplifiedRun l with
  | none => []
  | some s => s.1

/-- Total amount a user id receives across a list of suggestions (sum
of the suggestions naming it as creditor). -/
def creditorSum (res : List DebtSummary) (uid : String) : ℤ :=
  ((res.filter fun r => r.creditor.id = uid).map DebtSummary.amount).sum

/-- Total amount a user id pays across a list of suggestions (sum of
the suggestions naming it as debtor). -/
def debtorSum (res : List DebtSummary) (uid : String) : ℤ :=
  ((res.filter fun r => r.debtor.id = uid).map DebtSummary.amount).sum

/-- The balance of a user after applying every suggestion: each
suggestion moves its amount from the debtor to the creditor, so the
debtor's signed balance rises and the creditor's falls. -/
def settledBalance (res : List DebtSummary) (u : User) (b : ℤ) : ℤ :=
  b + debtorSum res u.id - creditorSum res u.id

/-- Sum over all users of the computed balances of a view. -/
def sumBalances (l : Ledger) (f : User → ℤ) : ℤ :=
  ((buildBalances l f).map fun p => p.2.2).sum

/-! Concrete users and ledgers used by the witnesses and
counterexamples. -/

/-- Test user A. -/
def uA : User := ⟨"A", "Ana", "AN", "#111111", 1⟩

/-- Test user B. -/
def uB : User := ⟨"B", "Beto", "BE", "#222222", 1⟩

/-- Test user C. -/
def uC : User := ⟨"C", "Cris", "CR", "#333333", 1⟩

/-- Scenario 1 ledger: A paid an expense of 30.00 (3000 cents) split
in shares of 10.00 for A, B and C; no payments. -/
def sc1 : Ledger :=
  { users := [uA, uB, uC]
    expenses := [⟨"e1", "cena", 3000, "A", "2024-01-01"⟩]
    participants := [⟨"e1", "A", 1000⟩, ⟨"e1", "B", 1000⟩, ⟨"e1", "C", 1000⟩]
    payments := [] }

/-- Scenario 3 ledger: scenario 1 extended with one recorded payment
of 10.00 from B to A. -/
def sc3 : Ledger :=
  { users := [uA, uB, uC]
    expenses := [⟨"e1", "cena", 3000, "A", "2024-01-01"⟩]
    participants := [⟨"e1", "A", 1000⟩, ⟨"e1", "B", 1000⟩, ⟨"e1", "C", 1000⟩]
    payments := [⟨"p1", "B", "A", 1000, none, "2024-01-02"⟩] }

/-- Ledger whose only balances are +0.01 for A and -0.01 for B:
nonzero, but within the epsilon filter. -/
def lCent : Ledger :=
  { users := [uA, uB]
    expenses := [⟨"e1", "cafe", 1, "A", "2024-01-01"⟩]
    participants := [⟨"e1", "B", 1⟩]
    payments := [] }

/-- Ledger with a negative input sum: a single expense of -50.00 paid
by A with B carrying a -50.00 share. -/
def lNeg : Ledger :=
  { users := [uA, uB]
    expenses := [⟨"e1", "ajuste", -5000, "A", "2024-01-01"⟩]
    participants := [⟨"e1", "B", -5000⟩]
    payments := [] }

/-- Ledger with balances +0.02 (A), -0.01 (B), -0.01 (C): the sum is
zero but B and C fall inside the epsilon filter, so the simplifier
has no debtors to match A against. -/
def lResidual : Ledger :=
  { users := [uA, uB, uC]
    expenses := [⟨"e1", "propina", 2, "A", "2024-01-01"⟩]
    participants := [⟨"e1", "B", 1⟩, ⟨"e1", "C", 1⟩]
    payments := [] }

/-- Ledger violating the share-sum invariant: an expense of 100.00
paid by A with no participant shares at all. -/
def lUnbalanced : Ledger :=
  { users := [uA]
    expenses := [⟨"e1", "solo", 10000, "A", "2024-01-01"⟩]
    participants := []
    payments := [] }

/-- Ledger with only a payment of 10.00 from B to A and no expenses. -/
def lPayOnly : Ledger :=
  { users := [uA, uB]
    expenses := []
    participants := []
    payments := [⟨"p1", "B", "A", 1000, none, "2024-01-02"⟩] }

/-- The output of `getSimplifiedDebts` on scenario 1. -/
def sc1Res : List DebtSummary := [⟨uB, uA, 1000⟩, ⟨uC, uA, 1000⟩]

/-! Structural lemmas about the shared plumbing. -/

theorem eps_pos : (0 : ℤ) < eps := by decide

theorem splitBalances_fst (m : List (String × (User × ℤ))) :
    (splitBalances m).1 =
      m.filterMap fun p => if p.2.2 > eps then some p.2 else none := by
  induction m with
  | nil => rfl
  | cons p rest ih =>
    obtain ⟨k, u, b⟩ := p
    simp only [splitBalances, List.filterMap_cons]
    split_ifs with h1 h2 <;> simp [ih]

theorem splitBalances_snd (m : List (String × (User × ℤ))) :
    (splitBalances m).2 =
      m.filterMap fun p => if p.2.2 < -eps then some (p.2.1, -p.2.2) else none := by
  induction m with
  | nil => rfl
  | cons p rest ih =>
    obtain ⟨k, u, b⟩ := p
    have hnot : ¬(b > eps ∧ b < -eps) := by
      rintro ⟨h1, h2⟩
      have := eps_pos
      omega
    simp only [splitBalances, List.filterMap_cons]
    split_ifs with h1 h2 <;> simp_all [ih]

theorem mapSet_mem_of {P : String × (User × ℤ) → Prop}
    (m : List (String × (User × ℤ))) (k : String) (v : User × ℤ)
    (hm : ∀ p ∈ m, P p) (hv : P (k, v)) :
    ∀ p ∈ mapSet m k v, P p := by
  intro p hp
  unfold mapSet at hp
  split at hp
  · obtain ⟨q, hq, rfl⟩ := List.mem_map.mp hp
    split_ifs
    · exact hv
    · exact hm q hq
  · rcases List.mem_append.mp hp with h | h
    · exact hm p h
    · rcases List.mem_singleton.mp h with rfl
      exact hv

theorem foldl_mapSet_mem (f : User → ℤ) :
    ∀ (us : List User) (acc : List (String × (User × ℤ))),
      (∀ p ∈ acc, ∃ u, p = (u.id, (u, f u))) →
      ∀ p ∈ us.foldl (fun m u => mapSet m u.id (u, f u)) acc,
        ∃ u, p = (u.id, (u, f u)) := by
  intro us
  induction us with
  | nil => intro acc hacc p hp; exact hacc p hp
  | cons u rest ih =>
    intro acc hacc p hp
    exact ih (mapSet acc u.id (u, f u))
      (mapSet_mem_of acc u.id (u, f u) hacc ⟨u, rfl⟩) p hp

theorem buildBalances_mem (l : Ledger) (f : User → ℤ) :
    ∀ p ∈ buildBalances l f, ∃ u, p = (u.id, (u, f u)) := by
  exact foldl_mapSet_mem f l.users [] (by intro p hp; cases hp)

theorem mapSet_keys_nodup (m : List (String × (User × ℤ))) (k : String)
    (v : User × ℤ) (h : (m.map Prod.fst).Nodup) :
    ((mapSet m k v).map Prod.fst).Nodup := by
  unfold mapSet
  split
  · have : (m.map fun p => if p.1 = k then (k, v) else p).map Prod.fst
        = m.map Prod.fst := by
      rw [List.map_map]
      apply List.map_congr_left
      intro p _
      by_cases hk : p.1 = k
      · simp [hk]
      · simp [hk]
    rw [this]; exact h
  · rename_i hany
    have hk : k ∉ m.map Prod.fst := by
      intro hmem
      obtain ⟨p, hp, hpk⟩ := List.mem_map.mp hmem
      exact hany (List.any_eq_true.mpr ⟨p, hp, by simp [hpk]⟩)
    have hsingle : (([(k, v)] : List (String × (User × ℤ))).map Prod.fst) = [k] := rfl
    rw [List.map_append, hsingle, List.nodup_append]
    refine ⟨h, List.nodup_singleton k, ?_⟩
    intro a ha hb
    rw [List.mem_singleton] at hb
    subst hb
    exact hk ha

theorem buildBalances_keys_nodup (l : Ledger) (f : User → ℤ) :
    ((buildBalances l f).map Prod.fst).Nodup := by
  unfold buildBalances
  suffices h : ∀ (us : List User) (acc : List (String × (User × ℤ))),
      (acc.map Prod.fst).Nodup →
      ((us.foldl (fun m u => mapSet m u.id (u, f u)) acc).map Prod.fst).Nodup by
    exact h l.users [] List.nodup_nil
  intro us
  induction us with
  | nil => intro acc hacc; exact hacc
  | cons u rest ih =>
    intro acc hacc
    exact ih (mapSet acc u.id (u, f u)) (mapSet_keys_nodup acc u.id (u, f u) hacc)

theorem mapSet_of_not_mem (m : List (String × (User × ℤ))) (k : String)
    (v : User × ℤ) (h : ∀ p ∈ m, p.1 ≠ k) :
    mapSet m k v = m ++ [(k, v)] := by
  unfold mapSet
  split
  · rename_i hany
    obtain ⟨p, hp, hpk⟩ := List.any_eq_true.mp hany
    exact absurd (of_decide_eq_true hpk) (h p hp)
  · rfl

theorem buildBalances_of_nodup (l : Ledger) (f : User → ℤ)
    (h : (l.users.map User.id).Nodup) :
    buildBalances l f = l.users.map fun u => (u.id, (u, f u)) := by
  unfold buildBalances
  suffices haux : ∀ (us : List User) (acc : List (String × (User × ℤ))),
      (us.map User.id).Nodup →
      (∀ u ∈ us, ∀ p ∈ acc, p.1 ≠ u.id) →
      us.foldl (fun m u => mapSet m u.id (u, f u)) acc
        = acc ++ us.map fun u => (u.id, (u, f u)) by
    have := haux l.users [] h (by intro u _ p hp; cases hp)
    simpa using this
  intro us
  induction us with
  | nil => intro acc _ _; simp
  | cons u rest ih =>
    intro acc hnd hdisj
    have hstep : mapSet acc u.id (u, f u) = acc ++ [(u.id, (u, f u))] :=
      mapSet_of_not_mem acc u.id (u, f u) (fun p hp => hdisj u (by simp) p hp)
    have hndtail : (rest.map User.id).Nodup := (List.nodup_cons.mp hnd).2
    have hhead : u.id ∉ rest.map User.id := (List.nodup_cons.mp hnd).1
    have hdisj' : ∀ u' ∈ rest, ∀ p ∈ acc ++ [(u.id, (u, f u))], p.1 ≠ u'.id := by
      intro u' hu' p hp
      rcases List.mem_append.mp hp with hpa | hpb
      · exact hdisj u' (by simp [hu']) p hpa
      · rcases List.mem_singleton.mp hpb with rfl
        intro heq
        have : u'.id ∈ rest.map User.id := List.mem_map.mpr ⟨u', hu', rfl⟩
        rw [← heq] at this
        exact hhead this
    simp only [List.foldl_cons, hstep, ih (acc ++ [(u.id, (u, f u))]) hndtail hdisj',
      List.map_cons, List.append_assoc, List.singleton_append]

theorem insertDesc_perm (x : User × ℤ) (l : List (User × ℤ)) :
    (insertDesc x l).Perm (x :: l) := by
  induction l with
  | nil => exact List.Perm.refl _
  | cons y ys ih =>
    unfold insertDesc
    split
    · exact (ih.cons y).trans (List.Perm.swap x y ys)
    · exact List.Perm.refl _

theorem sortDesc_perm (xs : List (User × ℤ)) : (sortDesc xs).Perm xs := by
  unfold sortDesc
  suffices haux : ∀ (ys : List (User × ℤ)) (acc : List (User × ℤ)),
      (ys.foldl (fun a x => insertDesc x a) acc).Perm (ys ++ acc) by
    simpa using haux xs []
  intro ys
  induction ys with
  | nil => intro acc; simp
  | cons y ys ih =>
    intro acc
    refine ((ih (insertDesc y acc)).trans ?_)
    refine (List.Perm.append_left ys (insertDesc_perm y acc)).trans ?_
    exact List.perm_middle

theorem allocToCreditors_users (d : User) :
    ∀ (rd : ℤ) (cs : List (User × ℤ)),
      ((allocToCreditors d rd cs).2).map Prod.fst = cs.map Prod.fst := by
  intro rd cs
  induction cs generalizing rd with
  | nil => rfl
  | cons c rest ih =>
    obtain ⟨cu, ca⟩ := c
    simp only [allocToCreditors]
    split <;> simp [ih]

theorem allocToCreditors_mem (d : User) :
    ∀ (rd : ℤ) (cs : List (User × ℤ)) (r : DebtSummary),
      r ∈ (allocToCreditors d rd cs).1 →
      r.debtor = d ∧ r.creditor.id ∈ cs.map fun p => p.1.id := by
  intro rd cs
  induction cs generalizing rd with
  | nil => intro r hr; cases hr
  | cons c rest ih =>
    obtain ⟨cu, ca⟩ := c
    intro r hr
    simp only [allocToCreditors] at hr
    split at hr
    · obtain ⟨hd, hc⟩ := ih rd r hr
      exact ⟨hd, by simp [hc]⟩
    · rcases List.mem_cons.mp hr with rfl | hr'
      · exact ⟨rfl, by simp⟩
      · obtain ⟨hd, hc⟩ := ih _ r hr'
        exact ⟨hd, by simp [hc]⟩

theorem allocAllDebtors_mem :
    ∀ (ds cs : List (User × ℤ)) (r : DebtSummary),
      r ∈ allocAllDebtors cs ds →
      (r.creditor.id ∈ cs.map fun p => p.1.id)
        ∧ (r.debtor.id ∈ ds.map fun p => p.1.id) := by
  intro ds
  induction ds with
  | nil => intro cs r hr; cases hr
  | cons d rest ih =>
    obtain ⟨du, da⟩ := d
    intro cs r hr
    simp only [allocAllDebtors] at hr
    rcases List.mem_append.mp hr with h1 | h2
    · obtain ⟨hd, hc⟩ := allocToCreditors_mem du da cs r h1
      exact ⟨hc, by simp [hd]⟩
    · obtain ⟨hc, hd⟩ := ih (allocToCreditors du da cs).2 r h2
      have husers : ((allocToCreditors du da cs).2).map (fun p => p.1.id)
          = cs.map fun p => p.1.id := by
        have h := allocToCreditors_users du da cs
        calc ((allocToCreditors du da cs).2).map (fun p => p.1.id)
            = (((allocToCreditors du da cs).2).map Prod.fst).map User.id := by
              rw [List.map_map]; rfl
          _ = (cs.map Prod.fst).map User.id := by rw [h]
          _ = cs.map fun p => p.1.id := by rw [List.map_map]; rfl
      rw [husers] at hc
      exact ⟨hc, by simp [hd]⟩

theorem simplifyStep_lengths (cu du : User) (ca da : ℤ)
    (ct dt : List (User × ℤ)) :
    (if ca - min ca da < eps then ct else (cu, ca - min ca da) :: ct).length
      + (if da - min ca da < eps then dt else (du, da - min ca da) :: dt).length
      + 1 ≤ (ct.length + 1) + (dt.length + 1) := by
  have heps : eps = 1 := rfl
  rcases le_total ca da with h | h
  · have h1 : ca - min ca da < eps := by rw [min_eq_left h]; omega
    rw [if_pos h1]
    split <;> simp <;> omega
  · have h1 : da - min ca da < eps := by rw [min_eq_right h]; omega
    rw [if_pos h1]
    split <;> simp <;> omega

theorem simplifyLoop_mem :
    ∀ (fuel : Nat) (cs ds : List (User × ℤ)) (res : List DebtSummary)
      (csF dsF : List (User × ℤ)),
      simplifyLoop fuel cs ds = some (res, csF, dsF) →
      ∀ r ∈ res, (r.creditor.id ∈ cs.map fun p => p.1.id)
        ∧ (r.debtor.id ∈ ds.map fun p => p.1.id) := by
  intro fuel
  induction fuel with
  | zero => intro cs ds res csF dsF h; cases h
  | succ fuel ih =>
    intro cs ds res csF dsF h
    match cs, ds with
    | [], ds =>
      simp only [simplifyLoop] at h
      injection h with h1
      cases h1
      intro r hr; cases hr
    | c :: ct, [] =>
      simp only [simplifyLoop] at h
      injection h with h1
      cases h1
      intro r hr; cases hr
    | (cu, ca) :: ct, (du, da) :: dt =>
      simp only [simplifyLoop] at h
      cases hrec : simplifyLoop fuel
          (if ca - min ca da < eps then ct else (cu, ca - min ca da) :: ct)
          (if da - min ca da < eps then dt else (du, da - min ca da) :: dt) with
      | none => rw [hrec] at h; cases h
      | some s =>
        rw [hrec] at h
        injection h with h1
        obtain ⟨s1, s2, s3⟩ := s
        cases h1
        intro r hr
        rcases List.mem_cons.mp hr with rfl | hr'
        · constructor <;> simp
        · obtain ⟨hc, hd⟩ := ih _ _ _ _ _ hrec r hr'
          constructor
          · revert hc
            split <;> intro hc <;> simp only [List.map_cons] at hc ⊢
            · exact List.mem_cons_of_mem _ hc
            · exact hc
          · revert hd
            split <;> intro hd <;> simp only [List.map_cons] at hd ⊢
            · exact List.mem_cons_of_mem _ hd
            · exact hd

theorem simplifyLoop_length :
    ∀ (fuel : Nat) (cs ds : List (User × ℤ)) (res : List DebtSummary)
      (csF dsF : List (User × ℤ)),
      simplifyLoop fuel cs ds = some (res, csF, dsF) →
      res.length ≤ cs.length + ds.length - 1 := by
  intro fuel
  induction fuel with
  | zero => intro cs ds res csF dsF h; cases h
  | succ fuel ih =>
    intro cs ds res csF dsF h
    match cs, ds with
    | [], ds =>
      simp only [simplifyLoop] at h
      injection h with h1
      cases h1
      simp
    | c :: ct, [] =>
      simp only [simplifyLoop] at h
      injection h with h1
      cases h1
      simp
    | (cu, ca) :: ct, (du, da) :: dt =>
      simp only [simplifyLoop] at h
      cases hrec : simplifyLoop fuel
          (if ca - min ca da < eps then ct else (cu, ca - min ca da) :: ct)
          (if da - min ca da < eps then dt else (du, da - min ca da) :: dt) with
      | none => rw [hrec] at h; cases h
      | some s =>
        rw [hrec] at h
        injection h with h1
        obtain ⟨s1, s2, s3⟩ := s
        cases h1
        have hIH := ih _ _ _ _ _ hrec
        have hstep := simplifyStep_lengths cu du ca da ct dt
        simp only [List.length_cons] at hIH hstep ⊢
        omega

theorem simplifyLoop_total :
    ∀ (fuel : Nat) (cs ds : List (User × ℤ)),
      cs.length + ds.length < fuel →
      (simplifyLoop fuel cs ds).isSome = true := by
  intro fuel
  induction fuel with
  | zero => intro cs ds h; omega
  | succ fuel ih =>
    intro cs ds h
    match cs, ds with
    | [], ds => simp [simplifyLoop]
    | c :: ct, [] => simp [simplifyLoop]
    | (cu, ca) :: ct, (du, da) :: dt =>
      simp only [simplifyLoop]
      cases hrec : simplifyLoop fuel
          (if ca - min ca da < eps then ct else (cu, ca - min ca da) :: ct)
          (if da - min ca da < eps then dt else (du, da - min ca da) :: dt) with
      | none =>
        exfalso
        have hstep := simplifyStep_lengths cu du ca da ct dt
        have hlt : (if ca - min ca da < eps then ct else (cu, ca - min ca da) :: ct).length
            + (if da - min ca da < eps then dt else (du, da - min ca da) :: dt).length
            < fuel := by
          simp only [List.length_cons] at h hstep
          omega
        have := ih _ _ hlt
        rw [hrec] at this
        cases this
      | some s => simp

theorem creditorSum_cons (r : DebtSummary) (res : List DebtSummary) (uid : String) :
    creditorSum (r :: res) uid
      = (if r.creditor.id = uid then r.amount else 0) + creditorSum res uid := by
  by_cases h : r.creditor.id = uid
  · simp [creditorSum, List.filter_cons, h]
  · simp [creditorSum, List.filter_cons, h]

theorem debtorSum_cons (r : DebtSummary) (res : List DebtSummary) (uid : String) :
    debtorSum (r :: res) uid
      = (if r.debtor.id = uid then r.amount else 0) + debtorSum res uid := by
  by_cases h : r.debtor.id = uid
  · simp [debtorSum, List.filter_cons, h]
  · simp [debtorSum, List.filter_cons, h]

theorem creditorSum_eq_zero (res : List DebtSummary) (uid : String)
    (h : ∀ r ∈ res, r.creditor.id ≠ uid) : creditorSum res uid = 0 := by
  induction res with
  | nil => rfl
  | cons r rest ih =>
    rw [creditorSum_cons, if_neg (h r (by simp)), ih (fun r hr => h r (by simp [hr]))]
    simp

theorem debtorSum_eq_zero (res : List DebtSummary) (uid : String)
    (h : ∀ r ∈ res, r.debtor.id ≠ uid) : debtorSum res uid = 0 := by
  induction res with
  | nil => rfl
  | cons r rest ih =>
    rw [debtorSum_cons, if_neg (h r (by simp)), ih (fun r hr => h r (by simp [hr]))]
    simp

theorem simplifyLoop_creditors_settled :
    ∀ (fuel : Nat) (cs ds : List (User × ℤ)) (res : List DebtSummary)
      (dsF : List (User × ℤ)),
      simplifyLoop fuel cs ds = some (res, [], dsF) →
      ((cs.map fun p => p.1.id).Nodup) →
      ∀ p ∈ cs, 0 ≤ p.2 - creditorSum res p.1.id
        ∧ p.2 - creditorSum res p.1.id < eps := by
  intro fuel
  induction fuel with
  | zero => intro cs ds res dsF h; cases h
  | succ fuel ih =>
    intro cs ds res dsF h hnd
    match cs, ds with
    | [], ds => intro p hp; cases hp
    | c :: ct, [] =>
      exfalso
      simp only [simplifyLoop] at h
      injection h with h1
      have h2 := congrArg (fun t => t.2.1) h1
      simp at h2
    | (cu, ca) :: ct, (du, da) :: dt =>
      simp only [simplifyLoop] at h
      cases hrec : simplifyLoop fuel
          (if ca - min ca da < eps then ct else (cu, ca - min ca da) :: ct)
          (if da - min ca da < eps then dt else (du, da - min ca da) :: dt) with
      | none => rw [hrec] at h; cases h
      | some s =>
        rw [hrec] at h
        obtain ⟨s1, s2, s3⟩ := s
        injection h with h1
        cases h1
        simp only [List.map_cons, List.nodup_cons] at hnd
        obtain ⟨hcu, hndt⟩ := hnd
        have hminle : min ca da ≤ ca := min_le_left ca da
        by_cases hca : ca - min ca da < eps
        · rw [if_pos hca] at hrec
          have hzero : creditorSum s1 cu.id = 0 := by
            apply creditorSum_eq_zero
            intro r hr heq
            have := (simplifyLoop_mem fuel _ _ _ _ _ hrec r hr).1
            rw [heq] at this
            exact hcu this
          intro p hp
          rcases List.mem_cons.mp hp with rfl | hp'
          · rw [creditorSum_cons, if_pos rfl, hzero]
            have heps : eps = 1 := rfl
            dsimp only
            omega
          · have hpid : p.1.id ≠ cu.id := by
              intro heq
              exact hcu (heq ▸ List.mem_map.mpr ⟨p, hp', rfl⟩)
            rw [creditorSum_cons, if_neg (fun heq => hpid heq.symm)]
            have := ih _ _ _ _ hrec hndt p hp'
            simpa using this
        · rw [if_neg hca] at hrec
          have hnd' : ((((cu, ca - min ca da) :: ct)).map fun p => p.1.id).Nodup := by
            simp only [List.map_cons, List.nodup_cons]
            exact ⟨hcu, hndt⟩
          have hIH := ih _ _ _ _ hrec hnd'
          intro p hp
          rcases List.mem_cons.mp hp with rfl | hp'
          · have hhead := hIH (cu, ca - min ca da) (by simp)
            rw [creditorSum_cons, if_pos rfl]
            simp only at hhead ⊢
            omega
          · have hpid : p.1.id ≠ cu.id := by
              intro heq
              exact hcu (heq ▸ List.mem_map.mpr ⟨p, hp', rfl⟩)
            rw [creditorSum_cons, if_neg (fun heq => hpid heq.symm)]
            have := hIH p (by simp [hp'])
            simpa using this

theorem simplifyLoop_debtors_settled :
    ∀ (fuel : Nat) (cs ds : List (User × ℤ)) (res : List DebtSummary)
      (csF : List (User × ℤ)),
      simplifyLoop fuel cs ds = some (res, csF, []) →
      ((ds.map fun p => p.1.id).Nodup) →
      ∀ p ∈ ds, 0 ≤ p.2 - debtorSum res p.1.id
        ∧ p.2 - debtorSum res p.1.id < eps := by
  intro fuel
  induction fuel with
  | zero => intro cs ds res csF h; cases h
  | succ fuel ih =>
    intro cs ds res csF h hnd
    match cs, ds with
    | [], ds =>
      simp only [simplifyLoop] at h
      injection h with h1
      cases h1
      intro p hp; cases hp
    | c :: ct, [] => intro p hp; cases hp
    | (cu, ca) :: ct, (du, da) :: dt =>
      simp only [simplifyLoop] at h
      cases hrec : simplifyLoop fuel
          (if ca - min ca da < eps then ct else (cu, ca - min ca da) :: ct)
          (if da - min ca da < eps then dt else (du, da - min ca da) :: dt) with
      | none => rw [hrec] at h; cases h
      | some s =>
        rw [hrec] at h
        obtain ⟨s1, s2, s3⟩ := s
        injection h with h1
        cases h1
        simp only [List.map_cons, List.nodup_cons] at hnd
        obtain ⟨hdu, hndt⟩ := hnd
        have hminle : min ca da ≤ da := min_le_right ca da
        by_cases hda : da - min ca da < eps
        · rw [if_pos hda] at hrec
          have hzero : debtorSum s1 du.id = 0 := by
            apply debtorSum_eq_zero
            intro r hr heq
            have := (simplifyLoop_mem fuel _ _ _ _ _ hrec r hr).2
            rw [heq] at this
            exact hdu this
          intro p hp
          rcases List.mem_cons.mp hp with rfl | hp'
          · rw [debtorSum_cons, if_pos rfl, hzero]
            have heps : eps = 1 := rfl
            dsimp only
            omega
          · have hpid : p.1.id ≠ du.id := by
              intro heq
              exact hdu (heq ▸ List.mem_map.mpr ⟨p, hp', rfl⟩)
            rw [debtorSum_cons, if_neg (fun heq => hpid heq.symm)]
            have := ih _ _ _ _ hrec hndt p hp'
            simpa using this
        · rw [if_neg hda] at hrec
          have hnd' : ((((du, da - min ca da) :: dt)).map fun p => p.1.id).Nodup := by
            simp only [List.map_cons, List.nodup_cons]
            exact ⟨hdu, hndt⟩
          have hIH := ih _ _ _ _ hrec hnd'
          intro p hp
          rcases List.mem_cons.mp hp with rfl | hp'
          · have hhead := hIH (du, da - min ca da) (by simp)
            rw [debtorSum_cons, if_pos rfl]
            simp only at hhead ⊢
            omega
          · have hpid : p.1.id ≠ du.id := by
              intro heq
              exact hdu (heq ▸ List.mem_map.mpr ⟨p, hp', rfl⟩)
            rw [debtorSum_cons, if_neg (fun heq => hpid heq.symm)]
            have := hIH p (by simp [hp'])
            simpa using this

theorem filterMap_if_eq {α β : Type} (m : List α) (c : α → Prop) [DecidablePred c]
    (g : α → β) :
    (m.filterMap fun p => if c p then some (g p) else none)
      = (m.filter fun p => c p).map g := by
  induction m with
  | nil => rfl
  | cons p rest ih =>
    by_cases hc : c p
    · simp [List.filterMap_cons, List.filter_cons, hc, ih]
    · simp [List.filterMap_cons, List.filter_cons, hc, ih]

theorem build_user_ids_nodup (l : Ledger) (f : User → ℤ) :
    ((buildBalances l f).map fun p => p.2.1.id).Nodup := by
  have hform := buildBalances_mem l f
  have : ((buildBalances l f).map fun p => p.2.1.id)
      = (buildBalances l f).map Prod.fst := by
    apply List.map_congr_left
    intro p hp
    obtain ⟨u, rfl⟩ := hform p hp
    rfl
  rw [this]
  exact buildBalances_keys_nodup l f

theorem build_entry_inj (l : Ledger) (f : User → ℤ) :
    ∀ p ∈ buildBalances l f, ∀ q ∈ buildBalances l f,
      p.2.1.id = q.2.1.id → p = q := by
  intro p hp q hq h
  exact List.inj_on_of_nodup_map (build_user_ids_nodup l f) hp hq h

theorem splitBalances_fst_eq (m : List (String × (User × ℤ))) :
    (splitBalances m).1 = (m.filter fun p => p.2.2 > eps).map fun p => p.2 := by
  rw [splitBalances_fst, filterMap_if_eq]

theorem splitBalances_snd_eq (m : List (String × (User × ℤ))) :
    (splitBalances m).2
      = (m.filter fun p => p.2.2 < -eps).map fun p => (p.2.1, -p.2.2) := by
  rw [splitBalances_snd, filterMap_if_eq]

theorem splitBalances_fst_ids (m : List (String × (User × ℤ))) :
    ((splitBalances m).1.map fun p => p.1.id)
      = (m.filter fun p => p.2.2 > eps).map fun p => p.2.1.id := by
  rw [splitBalances_fst_eq, List.map_map]
  rfl

theorem splitBalances_snd_ids (m : List (String × (User × ℤ))) :
    ((splitBalances m).2.map fun p => p.1.id)
      = (m.filter fun p => p.2.2 < -eps).map fun p => p.2.1.id := by
  rw [splitBalances_snd_eq, List.map_map]
  rfl

theorem splitBalances_fst_ids_nodup (l : Ledger) (f : User → ℤ) :
    (((splitBalances (buildBalances l f)).1).map fun p => p.1.id).Nodup := by
  rw [splitBalances_fst_ids]
  exact ((List.filter_sublist _).map _).nodup (build_user_ids_nodup l f)

theorem splitBalances_snd_ids_nodup (l : Ledger) (f : User → ℤ) :
    (((splitBalances (buildBalances l f)).2).map fun p => p.1.id).Nodup := by
  rw [splitBalances_snd_ids]
  exact ((List.filter_sublist _).map _).nodup (build_user_ids_nodup l f)

theorem split_ids_mem_fst (l : Ledger) (f : User → ℤ) (x : String) :
    x ∈ ((splitBalances (buildBalances l f)).1.map fun p => p.1.id) →
      ∃ p ∈ buildBalances l f, p.2.1.id = x ∧ p.2.2 > eps := by
  rw [splitBalances_fst_ids]
  intro hx
  obtain ⟨p, hp, hpx⟩ := List.mem_map.mp hx
  obtain ⟨hpm, hpc⟩ := List.mem_filter.mp hp
  exact ⟨p, hpm, hpx, of_decide_eq_true hpc⟩

theorem split_ids_mem_snd (l : Ledger) (f : User → ℤ) (x : String) :
    x ∈ ((splitBalances (buildBalances l f)).2.map fun p => p.1.id) →
      ∃ p ∈ buildBalances l f, p.2.1.id = x ∧ p.2.2 < -eps := by
  rw [splitBalances_snd_ids]
  intro hx
  obtain ⟨p, hp, hpx⟩ := List.mem_map.mp hx
  obtain ⟨hpm, hpc⟩ := List.mem_filter.mp hp
  exact ⟨p, hpm, hpx, of_decide_eq_true hpc⟩

theorem split_ids_disjoint (l : Ledger) (f : User → ℤ) (x : String)
    (hc : x ∈ ((splitBalances (buildBalances l f)).1.map fun p => p.1.id))
    (hd : x ∈ ((splitBalances (buildBalances l f)).2.map fun p => p.1.id)) :
    False := by
  obtain ⟨p, hpm, hpx, hpc⟩ := split_ids_mem_fst l f x hc
  obtain ⟨q, hqm, hqx, hqd⟩ := split_ids_mem_snd l f x hd
  have : p = q := build_entry_inj l f p hpm q hqm (by rw [hpx, hqx])
  subst this
  have heps : eps = 1 := rfl
  omega

theorem mem_split_fst_of_entry (l : Ledger) (f : User → ℤ)
    (p : String × (User × ℤ)) (hp : p ∈ buildBalances l f) (hb : p.2.2 > eps) :
    p.2 ∈ (splitBalances (buildBalances l f)).1 := by
  rw [splitBalances_fst_eq]
  exact List.mem_map_of_mem _ (List.mem_filter.mpr ⟨hp, decide_eq_true hb⟩)

theorem mem_split_snd_of_entry (l : Ledger) (f : User → ℤ)
    (p : String × (User × ℤ)) (hp : p ∈ buildBalances l f) (hb : p.2.2 < -eps) :
    (p.2.1, -p.2.2) ∈ (splitBalances (buildBalances l f)).2 := by
  rw [splitBalances_snd_eq]
  exact List.mem_map_of_mem _ (List.mem_filter.mpr ⟨hp, decide_eq_true hb⟩)

/-! Double-counting lemmas used for balance conservation. -/

theorem sum_map_add {α : Type} (l : List α) (f g : α → ℤ) :
    (l.map fun x => f x + g x).sum = (l.map f).sum + (l.map g).sum := by
  induction l with
  | nil => simp
  | cons x xs ih => simp [ih]; ring

theorem sum_map_sub {α : Type} (l : List α) (f g : α → ℤ) :
    (l.map fun x => f x - g x).sum = (l.map f).sum - (l.map g).sum := by
  induction l with
  | nil => simp
  | cons x xs ih => simp [ih]; ring

theorem sum_if_single (keys : List String) (x : String) (c : ℤ)
    (hnd : keys.Nodup) (hx : x ∈ keys) :
    (keys.map fun k => if x = k then c else 0).sum = c := by
  induction keys with
  | nil => cases hx
  | cons k ks ih =>
    obtain ⟨hk, hks⟩ := List.nodup_cons.mp hnd
    rcases List.mem_cons.mp hx with rfl | hx'
    · have hzero : (ks.map fun k' => if x = k' then c else 0).sum = 0 := by
        have : ∀ k' ∈ ks, (if x = k' then c else 0) = 0 := by
          intro k' hk'
          rw [if_neg]
          intro heq
          exact hk (heq ▸ hk')
        rw [List.map_congr_left this]
        simp
      simp [hzero]
    · have hne : x ≠ k := by
        intro heq
        exact hk (heq ▸ hx')
      simp [if_neg hne, ih hks hx']

theorem sum_keyed {α : Type} (keys : List String) (items : List α)
    (key : α → String) (amt : α → ℤ) (hnd : keys.Nodup)
    (hmem : ∀ a ∈ items, key a ∈ keys) :
    (keys.map fun k => ((items.filter fun a => key a = k).map amt).sum).sum
      = (items.map amt).sum := by
  induction items with
  | nil => simp
  | cons a items ih =>
    have hpoint : ∀ k ∈ keys,
        (((a :: items).filter fun x => key x = k).map amt).sum
          = (if key a = k then amt a else 0)
            + ((items.filter fun x => key x = k).map amt).sum := by
      intro k _
      by_cases h : key a = k
      · simp [List.filter_cons, h]
      · simp [List.filter_cons, h]
    rw [List.map_congr_left hpoint, sum_map_add,
      sum_if_single keys (key a) (amt a) hnd (hmem a (by simp)),
      ih (fun b hb => hmem b (by simp [hb]))]
    simp

/-! The claims. -/

/-- Claim C1: the spec's scenario 3 expects the pipeline behind
`getSimplifiedDebts` to recompute balances incorporating the recorded
payment (A = +10, B = 0 and dropped, C = -10) and to emit exactly one
suggestion, C to A for 10.00.  The code diverges: `getSimplifiedDebts`
never reads payments, so on that ledger its balances stay A = +20,
B = -10, C = -10 and it emits two suggestions, B to A 10.00 then C to
A 10.00; the payment-aware balances and the single suggestion the
claim describes are what the sibling view `getDebtSummary` produces.
(Amounts are in cents: 1000 = 10.00.) -/
theorem c1_simplified_ignores_payment :
    getSimplifiedDebts sc3 = [⟨uB, uA, 1000⟩, ⟨uC, uA, 1000⟩]
      ∧ simplifiedBalance sc3 uA = 2000
      ∧ simplifiedBalance sc3 uB = -1000
      ∧ simplifiedBalance sc3 uC = -1000
      ∧ getDebtSummary sc3 = [⟨uC, uA, 1000⟩]
      ∧ summaryBalance sc3 uA = 1000
      ∧ summaryBalance sc3 uB = 0
      ∧ summaryBalance sc3 uC = -1000 := by decide

/-- Claim C2: noninterference of the simplified-debts view with respect
to payments: two ledgers agreeing on users, expenses and participant
shares, and differing only in recorded payments, produce identical
`getSimplifiedDebts` output (its balance is `totalPaid - totalOwed`
only). -/
theorem c2_noninterference (l₁ l₂ : Ledger)
    (hu : l₁.users = l₂.users) (he : l₁.expenses = l₂.expenses)
    (hp : l₁.participants = l₂.participants) :
    getSimplifiedDebts l₁ = getSimplifiedDebts l₂ := by
  obtain ⟨u₁, e₁, p₁, pay₁⟩ := l₁
  obtain ⟨u₂, e₂, p₂, pay₂⟩ := l₂
  cases hu
  cases he
  cases hp
  rfl

/-- Witness for C2: scenario 1 and scenario 3 differ exactly in the
recorded payment, and the simplified view cannot tell them apart. -/
theorem c2_witness : getSimplifiedDebts sc1 = getSimplifiedDebts sc3 :=
  c2_noninterference sc1 sc3 rfl rfl rfl

/-- Claim C3 (counterexample): the claim says every balance feeding the
two debt views equals `(totalPaid - totalPaymentsReceived) -
(totalOwed - totalPaymentsMade)`.  On the ledger holding only a
payment of 10.00 from B to A, the simplified view computes balance 0
for A while that formula gives -10.00, so the claim fails for the
balances feeding `getSimplifiedDebts`. -/
theorem c3_counterexample :
    ((uA.id, (uA, (0 : ℤ))) ∈ buildBalances lPayOnly (simplifiedBalance lPayOnly))
      ∧ (totalPaid lPayOnly uA.id - totalPaymentsReceived lPayOnly uA.id)
          - (totalOwed lPayOnly uA.id - totalPaymentsMade lPayOnly uA.id) = -1000
      ∧ (0 : ℤ) ≠ -1000 := by decide

/-- Claim C3 (amended): the balances feeding `getDebtSummary` equal
`(totalPaid - totalPaymentsReceived) - (totalOwed -
totalPaymentsMade)`, while the balances feeding `getSimplifiedDebts`
equal `totalPaid - totalOwed` (payments ignored). -/
theorem c3_balance_formulas (l : Ledger) (p : String × (User × ℤ)) :
    (p ∈ buildBalances l (summaryBalance l) →
      p.2.2 = (totalPaid l p.2.1.id - totalPaymentsReceived l p.2.1.id)
        - (totalOwed l p.2.1.id - totalPaymentsMade l p.2.1.id))
      ∧ (p ∈ buildBalances l (simplifiedBalance l) →
        p.2.2 = totalPaid l p.2.1.id - totalOwed l p.2.1.id) := by
  constructor
  · intro hp
    obtain ⟨u, rfl⟩ := buildBalances_mem l _ p hp
    rfl
  · intro hp
    obtain ⟨u, rfl⟩ := buildBalances_mem l _ p hp
    rfl

/-- Witness for C3 at scenario 3, user A. -/
theorem c3_witness :
    ((uA.id, (uA, (1000 : ℤ))) ∈ buildBalances sc3 (summaryBalance sc3))
      ∧ (1000 : ℤ) = (totalPaid sc3 uA.id - totalPaymentsReceived sc3 uA.id)
          - (totalOwed sc3 uA.id - totalPaymentsMade sc3 uA.id) :=
  ⟨by decide, (c3_balance_formulas sc3 (uA.id, (uA, 1000))).1 (by decide)⟩

/-- Claim C4 (counterexample): the claim says pairwise balances are NOT
filtered by epsilon, every user with a positive net balance being a
creditor candidate however small.  On the ledger where A's balance is
+0.01 (and B's is -0.01), the code's epsilon filter (strict `> 0.01`
and `< -0.01`) drops both users: the creditor candidate list is empty
and the resolver emits nothing. -/
theorem c4_counterexample :
    summaryBalance lCent uA = 1
      ∧ (0 : ℤ) < summaryBalance lCent uA
      ∧ summaryCreditors lCent = []
      ∧ getDebtSummary lCent = [] := by decide

/-- Claim C4 (amended): pairwise balances ARE filtered by epsilon
before pairing: creditor candidates are exactly the entries with
balance `> 0.01` and debtor candidates exactly the entries with
balance `< -0.01` (kept as positive magnitudes), both in store
enumeration order, and `getDebtSummary` is the per-debtor walk over
creditors in enumeration order allocating `min(remainingDebt,
remainingCredit)` wherever both remainders exceed 0.01
(`allocAllDebtors`). -/
theorem c4_pairwise_epsilon_filtered (l : Ledger) :
    summaryCreditors l
        = ((buildBalances l (summaryBalance l)).filter
            fun p => p.2.2 > eps).map (fun p => p.2)
      ∧ summaryDebtors l
        = ((buildBalances l (summaryBalance l)).filter
            fun p => p.2.2 < -eps).map (fun p => (p.2.1, -p.2.2))
      ∧ getDebtSummary l = allocAllDebtors (summaryCreditors l) (summaryDebtors l) :=
  ⟨splitBalances_fst_eq _, splitBalances_snd_eq _, rfl⟩

/-- Claim C5: `getSimplifiedDebts` emits at most
`creditors.length + debtors.length - 1` suggestions (lengths of the
epsilon-filtered creditor and debtor queues; natural-number
subtraction, so the bound reads 0 when both queues are empty). -/
theorem c5_minimality_bound (l : Ledger) :
    (getSimplifiedDebts l).length
      ≤ (simplifiedCreditors l).length + (simplifiedDebtors l).length - 1 := by
  unfold getSimplifiedDebts
  cases hrun : simplifiedRun l with
  | none => simp
  | some s =>
    obtain ⟨s1, s2, s3⟩ := s
    unfold simplifiedRun at hrun
    have := simplifyLoop_length _ _ _ _ _ _ hrun
    simpa using this

/-- Claim C6 (counterexample): the claim says that for ALL balance
sets, applying every emitted suggestion drives every balance to within
epsilon of zero.  On the ledger with balances +0.02 (A), -0.01 (B),
-0.01 (C) the balances sum to zero, yet B and C fall inside the
epsilon filter, the simplifier emits nothing, and A is left at +0.02,
outside epsilon. -/
theorem c6_counterexample :
    ((uA.id, (uA, (2 : ℤ))) ∈ buildBalances lResidual (simplifiedBalance lResidual))
      ∧ getSimplifiedDebts lResidual = []
      ∧ settledBalance (getSimplifiedDebts lResidual) uA 2 = 2
      ∧ ¬(|settledBalance (getSimplifiedDebts lResidual) uA 2| ≤ eps) := by decide

/-- Claim C6 (amended): whenever the two-pointer loop consumes both the
creditor and the debtor queue completely (both leftover suffixes
empty), applying every emitted suggestion (amount added to the
debtor's balance, subtracted from the creditor's) leaves every user's
balance within epsilon of zero. -/
theorem c6_settlement_correctness (l : Ledger) (res : List DebtSummary)
    (hrun : simplifiedRun l = some (res, [], [])) :
    ∀ p ∈ buildBalances l (simplifiedBalance l),
      |settledBalance res p.2.1 p.2.2| ≤ eps := by
  intro p hp
  unfold simplifiedRun at hrun
  have hperm_c : (simplifiedCreditors l).Perm
      (splitBalances (buildBalances l (simplifiedBalance l))).1 := sortDesc_perm _
  have hperm_d : (simplifiedDebtors l).Perm
      (splitBalances (buildBalances l (simplifiedBalance l))).2 := sortDesc_perm _
  have hpermid_c := hperm_c.map fun q => q.1.id
  have hpermid_d := hperm_d.map fun q => q.1.id
  have hnd_c : ((simplifiedCreditors l).map fun q => q.1.id).Nodup :=
    hpermid_c.nodup_iff.mpr (splitBalances_fst_ids_nodup l _)
  have hnd_d : ((simplifiedDebtors l).map fun q => q.1.id).Nodup :=
    hpermid_d.nodup_iff.mpr (splitBalances_snd_ids_nodup l _)
  have hcs := simplifyLoop_creditors_settled _ _ _ _ _ hrun hnd_c
  have hds := simplifyLoop_debtors_settled _ _ _ _ _ hrun hnd_d
  have hmem := simplifyLoop_mem _ _ _ _ _ _ hrun
  have heps : eps = 1 := rfl
  by_cases hb1 : p.2.2 > eps
  · have hin0 : p.2 ∈ (splitBalances (buildBalances l (simplifiedBalance l))).1 :=
      mem_split_fst_of_entry l _ p hp hb1
    have hin : p.2 ∈ simplifiedCreditors l := hperm_c.mem_iff.mpr hin0
    obtain ⟨hlo, hhi⟩ := hcs p.2 hin
    have hdz : debtorSum res p.2.1.id = 0 := by
      apply debtorSum_eq_zero
      intro r hr heq
      have hd := (hmem r hr).2
      rw [heq] at hd
      have hd0 := hpermid_d.mem_iff.mp hd
      have hc0 : p.2.1.id ∈
          ((splitBalances (buildBalances l (simplifiedBalance l))).1.map
            fun q => q.1.id) :=
        List.mem_map.mpr ⟨p.2, hin0, rfl⟩
      exact split_ids_disjoint l _ _ hc0 hd0
    unfold settledBalance
    rw [hdz, abs_le]
    constructor <;> omega
  · by_cases hb2 : p.2.2 < -eps
    · have hin0 : (p.2.1, -p.2.2) ∈
          (splitBalances (buildBalances l (simplifiedBalance l))).2 :=
        mem_split_snd_of_entry l _ p hp hb2
      have hin : (p.2.1, -p.2.2) ∈ simplifiedDebtors l := hperm_d.mem_iff.mpr hin0
      obtain ⟨hlo, hhi⟩ := hds (p.2.1, -p.2.2) hin
      have hcz : creditorSum res p.2.1.id = 0 := by
        apply creditorSum_eq_zero
        intro r hr heq
        have hc := (hmem r hr).1
        rw [heq] at hc
        have hc0 := hpermid_c.mem_iff.mp hc
        have hd0 : p.2.1.id ∈
            ((splitBalances (buildBalances l (simplifiedBalance l))).2.map
              fun q => q.1.id) :=
          List.mem_map.mpr ⟨(p.2.1, -p.2.2), hin0, rfl⟩
        exact split_ids_disjoint l _ _ hc0 hd0
      unfold settledBalance
      rw [hcz, abs_le]
      simp only at hlo hhi
      constructor <;> omega
    · have hcz : creditorSum res p.2.1.id = 0 := by
        apply creditorSum_eq_zero
        intro r hr heq
        have hc := (hmem r hr).1
        rw [heq] at hc
        have hc0 := hpermid_c.mem_iff.mp hc
        obtain ⟨q, hq, hqid, hqb⟩ := split_ids_mem_fst l _ _ hc0
        have hqp : q = p := build_entry_inj l _ q hq p hp (by rw [hqid])
        rw [hqp] at hqb
        exact hb1 hqb
      have hdz : debtorSum res p.2.1.id = 0 := by
        apply debtorSum_eq_zero
        intro r hr heq
        have hd := (hmem r hr).2
        rw [heq] at hd
        have hd0 := hpermid_d.mem_iff.mp hd
        obtain ⟨q, hq, hqid, hqb⟩ := split_ids_mem_snd l _ _ hd0
        have hqp : q = p := build_entry_inj l _ q hq p hp (by rw [hqid])
        rw [hqp] at hqb
        exact hb2 hqb
      unfold settledBalance
      rw [hcz, hdz, abs_le]
      constructor <;> omega

/-- Witness for C6: on scenario 1 the loop exhausts both queues, and
A's balance of +20.00 is settled to within epsilon by the two emitted
suggestions. -/
theorem c6_witness :
    simplifiedRun sc1 = some (sc1Res, [], [])
      ∧ |settledBalance sc1Res uA 2000| ≤ eps :=
  ⟨by decide,
    c6_settlement_correctness sc1 sc1Res (by decide) (uA.id, (uA, 2000)) (by decide)⟩

/-- Claim C7 (counterexample): the claim asserts conservation for ALL
inputs; on a ledger with an expense of 100.00 whose participant shares
do not sum to its amount (here: no shares at all), the balances sum to
+100.00, far outside epsilon. -/
theorem c7_counterexample :
    sumBalances lUnbalanced (summaryBalance lUnbalanced) = 10000
      ∧ ¬(|sumBalances lUnbalanced (summaryBalance lUnbalanced)| ≤ eps)
      ∧ sumBalances lUnbalanced (simplifiedBalance lUnbalanced) = 10000 := by decide

/-- Claim C7 (amended): for every well-formed ledger — user ids and
expense ids are unique, every payer, participant and payment party is
a listed user, every participant row references a listed expense, and
each expense's participant shares sum to its amount — the balances of
both debt views sum to exactly zero. -/
theorem c7_balance_conservation (l : Ledger)
    (h1 : (l.users.map User.id).Nodup)
    (h2 : (l.expenses.map Expense.id).Nodup)
    (h3 : ∀ e ∈ l.expenses, e.payerId ∈ l.users.map User.id)
    (h4 : ∀ p ∈ l.participants, p.userId ∈ l.users.map User.id)
    (h5 : ∀ p ∈ l.participants, p.expenseId ∈ l.expenses.map Expense.id)
    (h6 : ∀ p ∈ l.payments, p.fromUserId ∈ l.users.map User.id
      ∧ p.toUserId ∈ l.users.map User.id)
    (h7 : ∀ e ∈ l.expenses,
      ((l.participants.filter fun p => p.expenseId = e.id).map
        ExpenseParticipant.amount).sum = e.amount) :
    sumBalances l (summaryBalance l) = 0
      ∧ sumBalances l (simplifiedBalance l) = 0 := by
  have hbuild : ∀ f : User → ℤ, sumBalances l f = (l.users.map f).sum := by
    intro f
    unfold sumBalances
    rw [buildBalances_of_nodup l f h1, List.map_map]
    rfl
  have hP : (l.users.map fun u => totalPaid l u.id).sum
      = (l.expenses.map Expense.amount).sum := by
    have hk := sum_keyed (l.users.map User.id) l.expenses Expense.payerId
      Expense.amount h1 h3
    calc (l.users.map fun u => totalPaid l u.id).sum
        = ((l.users.map User.id).map fun k =>
            ((l.expenses.filter fun e => e.payerId = k).map
              Expense.amount).sum).sum := by
          rw [List.map_map]
          exact congrArg List.sum (List.map_congr_left fun u _ => rfl)
      _ = (l.expenses.map Expense.amount).sum := hk
  have hO : (l.users.map fun u => totalOwed l u.id).sum
      = (l.participants.map ExpenseParticipant.amount).sum := by
    have hk := sum_keyed (l.users.map User.id) l.participants
      ExpenseParticipant.userId ExpenseParticipant.amount h1 h4
    calc (l.users.map fun u => totalOwed l u.id).sum
        = ((l.users.map User.id).map fun k =>
            ((l.participants.filter fun p => p.userId = k).map
              ExpenseParticipant.amount).sum).sum := by
          rw [List.map_map]
          exact congrArg List.sum (List.map_congr_left fun u _ => rfl)
      _ = (l.participants.map ExpenseParticipant.amount).sum := hk
  have hM : (l.users.map fun u => totalPaymentsMade l u.id).sum
      = (l.payments.map Payment.amount).sum := by
    have hk := sum_keyed (l.users.map User.id) l.payments
      Payment.fromUserId Payment.amount h1 (fun p hp => (h6 p hp).1)
    calc (l.users.map fun u => totalPaymentsMade l u.id).sum
        = ((l.users.map User.id).map fun k =>
            ((l.payments.filter fun p => p.fromUserId = k).map
              Payment.amount).sum).sum := by
          rw [List.map_map]
          exact congrArg List.sum (List.map_congr_left fun u _ => rfl)
      _ = (l.payments.map Payment.amount).sum := hk
  have hR : (l.users.map fun u => totalPaymentsReceived l u.id).sum
      = (l.payments.map Payment.amount).sum := by
    have hk := sum_keyed (l.users.map User.id) l.payments
      Payment.toUserId Payment.amount h1 (fun p hp => (h6 p hp).2)
    calc (l.users.map fun u => totalPaymentsReceived l u.id).sum
        = ((l.users.map User.id).map fun k =>
            ((l.payments.filter fun p => p.toUserId = k).map
              Payment.amount).sum).sum := by
          rw [List.map_map]
          exact congrArg List.sum (List.map_congr_left fun u _ => rfl)
      _ = (l.payments.map Payment.amount).sum := hk
  have hEP : (l.expenses.map Expense.amount).sum
      = (l.participants.map ExpenseParticipant.amount).sum := by
    have hpt : ∀ e ∈ l.expenses, Expense.amount e
        = ((l.participants.filter fun p => p.expenseId = e.id).map
            ExpenseParticipant.amount).sum :=
      fun e he => (h7 e he).symm
    have hk := sum_keyed (l.expenses.map Expense.id) l.participants
      ExpenseParticipant.expenseId ExpenseParticipant.amount h2 h5
    calc (l.expenses.map Expense.amount).sum
        = (l.expenses.map fun e => ((l.participants.filter
            fun p => p.expenseId = e.id).map ExpenseParticipant.amount).sum).sum := by
          rw [List.map_congr_left hpt]
      _ = ((l.expenses.map Expense.id).map fun k => ((l.participants.filter
            fun p => p.expenseId = k).map ExpenseParticipant.amount).sum).sum := by
          rw [List.map_map]
          exact congrArg List.sum (List.map_congr_left fun e _ => rfl)
      _ = (l.participants.map ExpenseParticipant.amount).sum := hk
  constructor
  · rw [hbuild]
    have hsum : (l.users.map (summaryBalance l)).sum
        = ((l.users.map fun u => totalPaid l u.id).sum
            - (l.users.map fun u => totalPaymentsReceived l u.id).sum)
          - ((l.users.map fun u => totalOwed l u.id).sum
            - (l.users.map fun u => totalPaymentsMade l u.id).sum) := by
      calc (l.users.map (summaryBalance l)).sum
          = (l.users.map fun u =>
              (totalPaid l u.id - totalPaymentsReceived l u.id)
                - (totalOwed l u.id - totalPaymentsMade l u.id)).sum :=
            congrArg List.sum (List.map_congr_left fun u _ => rfl)
        _ = (l.users.map fun u => totalPaid l u.id
              - totalPaymentsReceived l u.id).sum
            - (l.users.map fun u => totalOwed l u.id
              - totalPaymentsMade l u.id).sum := sum_map_sub _ _ _
        _ = ((l.users.map fun u => totalPaid l u.id).sum
              - (l.users.map fun u => totalPaymentsReceived l u.id).sum)
            - ((l.users.map fun u => totalOwed l u.id).sum
              - (l.users.map fun u => totalPaymentsMade l u.id).sum) := by
            rw [sum_map_sub, sum_map_sub]
    rw [hsum, hP, hO, hM, hR, hEP]
    ring
  · rw [hbuild]
    have hsum : (l.users.map (simplifiedBalance l)).sum
        = (l.users.map fun u => totalPaid l u.id).sum
          - (l.users.map fun u => totalOwed l u.id).sum := by
      calc (l.users.map (simplifiedBalance l)).sum
          = (l.users.map fun u => totalPaid l u.id - totalOwed l u.id).sum :=
            congrArg List.sum (List.map_congr_left fun u _ => rfl)
        _ = (l.users.map fun u => totalPaid l u.id).sum
            - (l.users.map fun u => totalOwed l u.id).sum := sum_map_sub _ _ _
    rw [hsum, hP, hO, hEP]
    ring

/-- Witness for C7 at scenario 3: a well-formed ledger with users,
expenses, shares and a payment; both balance sums vanish. -/
theorem c7_witness :
    sumBalances sc3 (summaryBalance sc3) = 0
      ∧ sumBalances sc3 (simplifiedBalance sc3) = 0 :=
  c7_balance_conservation sc3 (by decide) (by decide) (by decide) (by decide)
    (by decide) (by decide) (by decide)

/-- Claim C8 (counterexample): the claim says a negative input sum
makes the computation fail fast with an `InvalidAmountError` before
any arithmetic, surfaced to the caller.  The code contains no such
validation: on the ledger whose only expense is -50.00 (so A's paid
sum is -50.00, a negative input sum), both views run the balance
arithmetic on the negative values and return a normal suggestion list
(A, payer of the negative expense, ends up the debtor of B). -/
theorem c8_counterexample :
    totalPaid lNeg uA.id = -5000
      ∧ summaryBalance lNeg uA = -5000
      ∧ getDebtSummary lNeg = [⟨uA, uB, 5000⟩]
      ∧ getSimplifiedDebts lNeg = [⟨uA, uB, 5000⟩] := by decide

/-- Claim C8 (amended): no fail-fast validation exists: even when an
input sum is negative (a negative expense amount makes the payer's
paid sum negative), `getDebtSummary` still computes the epsilon-split
of the unvalidated arithmetic balances and returns the greedy
allocation over them — no error value interrupts the pipeline. -/
theorem c8_no_validation (l : Ledger)
    (_hneg : ∃ e ∈ l.expenses, e.amount < 0) :
    getDebtSummary l
      = allocAllDebtors
          (((buildBalances l (summaryBalance l)).filter
            fun p => p.2.2 > eps).map fun p => p.2)
          (((buildBalances l (summaryBalance l)).filter
            fun p => p.2.2 < -eps).map fun p => (p.2.1, -p.2.2)) := by
  unfold getDebtSummary summaryCreditors summaryDebtors
  rw [splitBalances_fst_eq, splitBalances_snd_eq]

/-- Witness for C8 at the negative-expense ledger. -/
theorem c8_witness :
    (∃ e ∈ lNeg.expenses, e.amount < 0)
      ∧ getDebtSummary lNeg
        = allocAllDebtors
            (((buildBalances lNeg (summaryBalance lNeg)).filter
              fun p => p.2.2 > eps).map fun p => p.2)
            (((buildBalances lNeg (summaryBalance lNeg)).filter
              fun p => p.2.2 < -eps).map fun p => (p.2.1, -p.2.2)) :=
  ⟨by decide, c8_no_validation lNeg (by decide)⟩

/-- Claim C9: the two-pointer loop terminates for every input (each
iteration advances at least one cursor, so fuel exceeding the total
queue length is never exhausted); in particular the full run inside
`getSimplifiedDebts` always yields a result. -/
theorem c9_termination :
    (∀ (fuel : Nat) (cs ds : List (User × ℤ)),
      cs.length + ds.length < fuel → (simplifyLoop fuel cs ds).isSome = true)
      ∧ ∀ l : Ledger, (simplifiedRun l).isSome = true := by
  constructor
  · exact simplifyLoop_total
  · intro l
    unfold simplifiedRun
    exact simplifyLoop_total _ _ _ (by omega)

/-- Witness for C9: a creditor of 20.00 against a debtor of 10.00 (an
unbalanced pair, totals differing by more than epsilon) still
terminates within its fuel. -/
theorem c9_witness :
    ([((uA, 2000) : User × ℤ)].length + [((uB, 1000) : User × ℤ)].length < 3)
      ∧ (simplifyLoop 3 [(uA, 2000)] [(uB, 1000)]).isSome = true :=
  ⟨by decide, c9_termination.1 3 [(uA, 2000)] [(uB, 1000)] (by decide)⟩

/-- Claim C10: no self-settlement: no suggestion emitted by either
debt view pairs a user with themselves — the debtor and creditor of
every suggestion are distinct users (they come from the creditor and
debtor candidate lists, which are built from disjoint sets of balance
entries). -/
theorem c10_no_self_settlement (l : Ledger) (s : DebtSummary)
    (hs : s ∈ getDebtSummary l ∨ s ∈ getSimplifiedDebts l) :
    s.debtor ≠ s.creditor := by
  intro heq
  rcases hs with hs | hs
  · unfold getDebtSummary at hs
    obtain ⟨hc, hd⟩ := allocAllDebtors_mem _ _ _ hs
    rw [heq] at hd
    exact split_ids_disjoint l (summaryBalance l) s.creditor.id hc hd
  · unfold getSimplifiedDebts at hs
    cases hrun : simplifiedRun l with
    | none => rw [hrun] at hs; cases hs
    | some t =>
      rw [hrun] at hs
      unfold simplifiedRun at hrun
      obtain ⟨t1, t2, t3⟩ := t
      obtain ⟨hc, hd⟩ := simplifyLoop_mem _ _ _ _ _ _ hrun s hs
      rw [heq] at hd
      have hpermid_c := (sortDesc_perm
        (splitBalances (buildBalances l (simplifiedBalance l))).1).map
        fun q => q.1.id
      have hpermid_d := (sortDesc_perm
        (splitBalances (buildBalances l (simplifiedBalance l))).2).map
        fun q => q.1.id
      exact split_ids_disjoint l (simplifiedBalance l) s.creditor.id
        (hpermid_c.mem_iff.mp hc) (hpermid_d.mem_iff.mp hd)

/-- Witness for C10: the suggestion C to A emitted by `getDebtSummary`
on scenario 3 has distinct debtor and creditor. -/
theorem c10_witness :
    ((⟨uC, uA, 1000⟩ : DebtSummary) ∈ getDebtSummary sc3)
      ∧ (⟨uC, uA, 1000⟩ : DebtSummary).debtor
        ≠ (⟨uC, uA, 1000⟩ : DebtSummary).creditor :=
  ⟨by decide, c10_no_self_settlement sc3 ⟨uC, uA, 1000⟩ (Or.inl (by decide))⟩

end GG
